import Mathlib

/-!
Verification of the batch classification orchestrator of the
`byu-learning-outcomes-classifier` repository.

The definitions below are a shallow embedding of the Python sources
`classify_outcomes_batch.py` (batch orchestrator: batch building, job
monitoring, retry/splitting, result merging, checkpoint materialization)
and `classify_outcomes.py` (sequential pipeline with resume support).
Python strings are embedded as Lean `String` (or `List Char` where
character-level operations such as `split` matter); Python dicts keyed by
row index are embedded as insertion-ordered association lists; the external
service's behaviour is an explicit environment parameter.
-/

set_option maxRecDepth 4000

/-- The fixed taxonomy (`BYU_AIMS`, classify_outcomes_batch.py lines 40-45). -/
def BYU_AIMS : List String :=
  ["Spiritually Strengthening",
   "Intellectually Enlarging",
   "Character Building",
   "Lifelong Learning and Service"]

/-- Default poll interval in seconds (`--check-interval`, default 30). -/
def CHECK_INTERVAL : Nat := 30

/-- Retry ceiling (`max_retries = 3`, classify_outcomes_batch.py line 284). -/
def max_retries : Nat := 3

/-! ## Python dict model

`all_results` (line 50) is a Python dict keyed by row index.  A Python dict
is insertion-ordered: assigning to an existing key replaces its value in
place, assigning a fresh key appends it.  `dict.update` (line 311) assigns
every pair of the argument in iteration order. -/

/-- Does the association list hold key `k`?  (Python `k in d`.) -/
def hasKey {V : Type} (m : List (Nat × V)) (k : Nat) : Bool :=
  m.any (fun p => p.1 == k)

/-- Python dict assignment `d[k] = v`: replace in place if the key exists,
else append. -/
def dictAssign {V : Type} (m : List (Nat × V)) (k : Nat) (v : V) : List (Nat × V) :=
  if hasKey m k then m.map (fun p => if p.1 = k then (k, v) else p)
  else m ++ [(k, v)]

/-- Python `d.update(other)` (classify_outcomes_batch.py line 311,
`all_results.update(batch_results)`): assign every pair of `other` in order. -/
def dictUpdate {V : Type} (m other : List (Nat × V)) : List (Nat × V) :=
  other.foldl (fun acc p => dictAssign acc p.1 p.2) m

/-- Python `d.get(k)` / `d[k]` lookup, first (only) matching key. -/
def dictFind? {K V : Type} [BEq K] (m : List (K × V)) (k : K) : Option V :=
  (m.find? (fun p => p.1 == k)).map Prod.snd

theorem hasKey_iff {V : Type} (m : List (Nat × V)) (k : Nat) :
    hasKey m k = true ↔ ∃ p ∈ m, p.1 = k := by
  simp [hasKey]

theorem mem_dictAssign {V : Type} {m : List (Nat × V)} {k : Nat} {v : V} {q : Nat × V}
    (hq : q ∈ dictAssign m k v) : q = (k, v) ∨ q ∈ m := by
  unfold dictAssign at hq
  split at hq
  · rcases List.mem_map.mp hq with ⟨p, hp, hpq⟩
    by_cases h : p.1 = k
    · rw [if_pos h] at hpq
      exact Or.inl hpq.symm
    · rw [if_neg h] at hpq
      exact Or.inr (hpq ▸ hp)
  · rcases List.mem_append.mp hq with h | h
    · exact Or.inr h
    · simp only [List.mem_singleton] at h
      exact Or.inl h

theorem dictAssign_uniform {V : Type} (m : List (Nat × V)) (k : Nat) (v : V) :
    ∀ q ∈ dictAssign m k v, q.1 = k → q.2 = v := by
  intro q hq hqk
  unfold dictAssign at hq
  split at hq
  case isTrue h =>
    rcases List.mem_map.mp hq with ⟨p, _, hpq⟩
    by_cases hpk : p.1 = k
    · rw [if_pos hpk] at hpq; rw [← hpq]
    · rw [if_neg hpk] at hpq; rw [← hpq] at hqk; exact absurd hqk hpk
  case isFalse h =>
    rcases List.mem_append.mp hq with hm | he
    · exact absurd ((hasKey_iff m k).mpr ⟨q, hm, hqk⟩) h
    · simp only [List.mem_singleton] at he; rw [he]

theorem hasKey_dictAssign_self {V : Type} (m : List (Nat × V)) (k : Nat) (v : V) :
    hasKey (dictAssign m k v) k = true := by
  unfold dictAssign
  split
  case isTrue h =>
    rcases (hasKey_iff m k).mp h with ⟨p, hp, hpk⟩
    refine (hasKey_iff _ _).mpr ⟨(k, v), List.mem_map.mpr ⟨p, hp, ?_⟩, rfl⟩
    rw [if_pos hpk]
  case isFalse h =>
    exact (hasKey_iff _ _).mpr ⟨(k, v), by simp⟩

theorem dictAssign_uniform_other {V : Type} {m : List (Nat × V)} {k k' : Nat} {v w : V}
    (hne : k' ≠ k) (h : ∀ q ∈ m, q.1 = k' → q.2 = w) :
    ∀ q ∈ dictAssign m k v, q.1 = k' → q.2 = w := by
  intro q hq hqk
  rcases mem_dictAssign hq with rfl | hqm
  · exact absurd hqk (by simpa using hne.symm)
  · exact h q hqm hqk

theorem hasKey_dictAssign_other {V : Type} {m : List (Nat × V)} {k k' : Nat} {v : V}
    (hne : k' ≠ k) (h : hasKey m k' = true) :
    hasKey (dictAssign m k v) k' = true := by
  rcases (hasKey_iff m k').mp h with ⟨p, hp, hpk⟩
  unfold dictAssign
  split
  case isTrue _ =>
    refine (hasKey_iff _ _).mpr ⟨if p.1 = k then (k, v) else p, List.mem_map.mpr ⟨p, hp, rfl⟩, ?_⟩
    have hnk : ¬ p.1 = k := fun hc => hne (hpk ▸ hc ▸ rfl)
    rw [if_neg hnk]
    exact hpk
  case isFalse _ =>
    exact (hasKey_iff _ _).mpr ⟨p, List.mem_append.mpr (Or.inl hp), hpk⟩

/-- Assigning a key a value it already uniformly holds leaves the dict
structurally unchanged. -/
theorem dictAssign_self {V : Type} {m : List (Nat × V)} {k : Nat} {v : V}
    (hk : hasKey m k = true) (hv : ∀ q ∈ m, q.1 = k → q.2 = v) :
    dictAssign m k v = m := by
  unfold dictAssign
  rw [if_pos hk]
  have : ∀ p ∈ m, (if p.1 = k then (k, v) else p) = p := by
    intro p hp
    by_cases h : p.1 = k
    · have h2 := hv p hp h
      simp [h]
      exact Prod.ext h.symm h2.symm
    · simp [h]
  calc m.map (fun p => if p.1 = k then (k, v) else p) = m.map id := List.map_congr_left this
    _ = m := List.map_id m

/-- Keys untouched by an update keep their uniform values. -/
theorem dictUpdate_uniform_other {V : Type} {k' : Nat} {w : V} :
    ∀ (R : List (Nat × V)) (m : List (Nat × V)),
      k' ∉ R.map Prod.fst → (∀ q ∈ m, q.1 = k' → q.2 = w) →
      ∀ q ∈ dictUpdate m R, q.1 = k' → q.2 = w := by
  intro R
  induction R with
  | nil => intro m _ h; simpa [dictUpdate] using h
  | cons r R ih =>
    intro m hk h
    simp only [List.map_cons, List.mem_cons] at hk
    push_neg at hk
    have := ih (dictAssign m r.1 r.2) hk.2 (dictAssign_uniform_other hk.1 h)
    simpa [dictUpdate] using this

/-- Keys present before an update stay present. -/
theorem dictUpdate_hasKey_mono {V : Type} {k' : Nat} :
    ∀ (R : List (Nat × V)) (m : List (Nat × V)),
      hasKey m k' = true → hasKey (dictUpdate m R) k' = true := by
  intro R
  induction R with
  | nil => intro m h; simpa [dictUpdate] using h
  | cons r R ih =>
    intro m h
    have hstep : hasKey (dictAssign m r.1 r.2) k' = true := by
      by_cases hk : k' = r.1
      · rw [hk]; exact hasKey_dictAssign_self m r.1 r.2
      · exact hasKey_dictAssign_other hk h
    have := ih (dictAssign m r.1 r.2) hstep
    simpa [dictUpdate] using this

/-- After `dictUpdate m R` with duplicate-free keys in `R`, every pair of `R`
is present, and uniformly holds its `R`-value. -/
theorem dictUpdate_holds {V : Type} :
    ∀ (R : List (Nat × V)) (m : List (Nat × V)), (R.map Prod.fst).Nodup →
      ∀ kv ∈ R, hasKey (dictUpdate m R) kv.1 = true ∧
        (∀ q ∈ dictUpdate m R, q.1 = kv.1 → q.2 = kv.2) := by
  intro R
  induction R with
  | nil => intro m _ kv hkv; cases hkv
  | cons r R ih =>
    intro m hnd kv hkv
    simp only [List.map_cons, List.nodup_cons] at hnd
    rcases List.mem_cons.mp hkv with rfl | hmem
    · constructor
      · have h0 := hasKey_dictAssign_self m kv.1 kv.2
        have := dictUpdate_hasKey_mono R (dictAssign m kv.1 kv.2) h0
        simpa [dictUpdate] using this
      · have h0 := dictAssign_uniform m kv.1 kv.2
        have := dictUpdate_uniform_other R (dictAssign m kv.1 kv.2) hnd.1 h0
        simpa [dictUpdate] using this
    · have := ih (dictAssign m r.1 r.2) hnd.2 kv hmem
      simpa [dictUpdate] using this

/-- Updating with pairs the dict already holds uniformly is the identity. -/
theorem dictUpdate_of_holds {V : Type} :
    ∀ (R : List (Nat × V)) (M : List (Nat × V)),
      (∀ kv ∈ R, hasKey M kv.1 = true ∧ (∀ q ∈ M, q.1 = kv.1 → q.2 = kv.2)) →
      dictUpdate M R = M := by
  intro R
  induction R with
  | nil => intro M _; simp [dictUpdate]
  | cons r R ih =>
    intro M h
    have hr := h r (List.mem_cons_self r R)
    have heq : dictAssign M r.1 r.2 = M := dictAssign_self hr.1 hr.2
    have : dictUpdate (dictAssign M r.1 r.2) R = M := by
      rw [heq]; exact ih M (fun kv hkv => h kv (List.mem_cons_of_mem r hkv))
    simpa [dictUpdate] using this

/-- C5: merging the same result set into the ledger twice leaves the ledger
in exactly the state a single merge produces (`all_results.update`,
classify_outcomes_batch.py lines 309-316). -/
theorem merge_idempotent {V : Type} (L R : List (Nat × V))
    (hR : (R.map Prod.fst).Nodup) :
    dictUpdate (dictUpdate L R) R = dictUpdate L R :=
  dictUpdate_of_holds R (dictUpdate L R) (fun kv hkv => dictUpdate_holds R L hR kv hkv)

/-- Concrete witness for C5. -/
theorem merge_idempotent_witness :
    dictUpdate (dictUpdate [(0, 10)] [(0, 11), (1, 12)]) [(0, 11), (1, 12)]
      = dictUpdate [(0, 10)] [(0, 11), (1, 12)] :=
  merge_idempotent [(0, 10)] [(0, 11), (1, 12)] (by decide)

/-! ## Request identifier (C6)

`prepare_batch_request` tags request `i` with `custom_id = f"outcome-{i}"`
(line 172); `process_batch_results` recovers the row index with
`int(custom_id.split("-")[1])` guarded by
`custom_id.startswith("outcome-")` (lines 414-415).  Python strings are
embedded character-by-character: `str(i)` as decimal digit characters,
`int(t)` as a digit parse, `split("-")` as splitting on the dash
character. -/

/-- The decimal digit character for `d < 10` (embedding of Python's
number-to-string conversion, one digit). -/
def digitChar (d : Nat) : Char := Char.ofNat (48 + d)

/-- Structural worker for `natDigits`; the fuel argument only bounds the
number of divisions by 10 and is irrelevant once at least `n`. -/
def natDigitsGo : Nat → Nat → List Char
  | 0, n => [digitChar (n % 10)]
  | fuel + 1, n =>
    if n < 10 then [digitChar n]
    else natDigitsGo fuel (n / 10) ++ [digitChar (n % 10)]

/-- Embedding of Python `str(i)` for a nonnegative integer: decimal digit
characters, most significant first. -/
def natDigits (n : Nat) : List Char := natDigitsGo n n

theorem natDigitsGo_fuel :
    ∀ (f₁ f₂ n : Nat), n ≤ f₁ → n ≤ f₂ → natDigitsGo f₁ n = natDigitsGo f₂ n := by
  intro f₁
  induction f₁ with
  | zero =>
    intro f₂ n h₁ _
    have hn : n = 0 := by omega
    subst hn
    cases f₂ with
    | zero => rfl
    | succ f₂ => simp [natDigitsGo]
  | succ f₁ ih =>
    intro f₂ n h₁ h₂
    cases f₂ with
    | zero =>
      have hn : n = 0 := by omega
      subst hn
      simp [natDigitsGo]
    | succ f₂ =>
      rw [natDigitsGo, natDigitsGo]
      by_cases hn : n < 10
      · rw [if_pos hn, if_pos hn]
      · rw [if_neg hn, if_neg hn]
        have hd : n / 10 ≤ f₁ := by omega
        have hd2 : n / 10 ≤ f₂ := by omega
        rw [ih f₂ (n / 10) hd hd2]

/-- The defining recurrence of `natDigits`. -/
theorem natDigits_eq (n : Nat) :
    natDigits n = if n < 10 then [digitChar n]
      else natDigits (n / 10) ++ [digitChar (n % 10)] := by
  unfold natDigits
  cases n with
  | zero => simp [natDigitsGo]
  | succ m =>
    rw [natDigitsGo]
    by_cases hn : m + 1 < 10
    · rw [if_pos hn, if_pos hn]
    · rw [if_neg hn, if_neg hn]
      have : (m + 1) / 10 ≤ m := by omega
      rw [natDigitsGo_fuel m ((m + 1) / 10) ((m + 1) / 10) this le_rfl]

/-- Is `c` a decimal digit character? -/
def isDigitCh (c : Char) : Bool := 48 ≤ c.toNat && c.toNat ≤ 57

/-- Embedding of Python `int(t)` on a string of characters: succeeds on a
nonempty all-digit string, otherwise raises (`None`). -/
def pyInt (cs : List Char) : Option Nat :=
  if cs ≠ [] ∧ cs.all isDigitCh then
    some (cs.foldl (fun a c => a * 10 + (c.toNat - 48)) 0)
  else none

/-- Embedding of Python `s.split("-")`. -/
def splitOnDash : List Char → List (List Char)
  | [] => [[]]
  | c :: cs =>
    if c = '-' then [] :: splitOnDash cs
    else
      match splitOnDash cs with
      | [] => [[c]]
      | h :: t => (c :: h) :: t

/-- Embedding of Python `s.startswith(p)` (`p` first argument). -/
def startsWithChars : List Char → List Char → Bool
  | [], _ => true
  | _ :: _, [] => false
  | p :: ps, c :: cs => p = c && startsWithChars ps cs

/-- `custom_id = f"outcome-{i}"` (classify_outcomes_batch.py line 172). -/
def encodeCustomId (i : Nat) : List Char :=
  "outcome-".toList ++ natDigits i

/-- Row-index recovery from a custom id (classify_outcomes_batch.py lines
414-415): `int(custom_id.split("-")[1])` when the id starts with
`outcome-`; any other id is not treated as a result row. -/
def decodeCustomId (s : List Char) : Option Nat :=
  if startsWithChars "outcome-".toList s then
    match (splitOnDash s).get? 1 with
    | some t => pyInt t
    | none => none
  else none

theorem natDigits_ne_nil (n : Nat) : natDigits n ≠ [] := by
  rw [natDigits_eq]
  split
  · simp
  · simp

theorem digitChar_digit {d : Nat} (h : d < 10) :
    isDigitCh (digitChar d) = true ∧ digitChar d ≠ '-' ∧ (digitChar d).toNat = 48 + d := by
  have hall : ∀ e < 10, isDigitCh (digitChar e) = true ∧ digitChar e ≠ '-' ∧
      (digitChar e).toNat = 48 + e := by decide
  exact hall d h

theorem natDigits_all_digits (n : Nat) : (natDigits n).all isDigitCh = true := by
  induction n using Nat.strong_induction_on with
  | _ n ih =>
    rw [natDigits_eq]
    split
    case isTrue h =>
      simp [List.all_cons, (digitChar_digit h).1]
    case isFalse h =>
      rw [List.all_append]
      have h1 := ih (n / 10) (Nat.div_lt_self (by omega) (by omega))
      have h2 := (digitChar_digit (Nat.mod_lt n (by omega))).1
      simp [h1, h2]

theorem natDigits_no_dash (n : Nat) : '-' ∉ natDigits n := by
  induction n using Nat.strong_induction_on with
  | _ n ih =>
    rw [natDigits_eq]
    split
    case isTrue h =>
      simp only [List.mem_singleton]
      intro hc
      exact absurd hc.symm (digitChar_digit h).2.1
    case isFalse h =>
      rw [List.mem_append]
      push_neg
      refine ⟨ih (n / 10) (Nat.div_lt_self (by omega) (by omega)), ?_⟩
      simp only [List.mem_singleton]
      intro hc
      exact absurd hc.symm (digitChar_digit (Nat.mod_lt n (by omega))).2.1

theorem foldl_natDigits (n : Nat) :
    ∀ a : Nat, (natDigits n).foldl (fun a c => a * 10 + (c.toNat - 48)) a
      = a * 10 ^ (natDigits n).length + n := by
  induction n using Nat.strong_induction_on with
  | _ n ih =>
    intro a
    rw [natDigits_eq]
    split
    case isTrue h =>
      simp [List.foldl_cons, (digitChar_digit h).2.2]
    case isFalse h =>
      rw [List.foldl_append]
      have h1 := ih (n / 10) (Nat.div_lt_self (by omega) (by omega)) a
      rw [h1]
      have h2 := (digitChar_digit (Nat.mod_lt n (by omega))).2.2
      simp only [List.foldl_cons, List.foldl_nil, List.length_append, List.length_singleton, h2]
      have : 48 + n % 10 - 48 = n % 10 := by omega
      rw [this, pow_succ]
      have hmod := Nat.div_add_mod n 10
      ring_nf
      omega

theorem pyInt_natDigits (n : Nat) : pyInt (natDigits n) = some n := by
  rw [pyInt, if_pos ⟨natDigits_ne_nil n, natDigits_all_digits n⟩]
  rw [foldl_natDigits n 0]
  simp

theorem splitOnDash_ne_nil (l : List Char) : splitOnDash l ≠ [] := by
  induction l with
  | nil => simp [splitOnDash]
  | cons c cs ih =>
    rw [splitOnDash]
    split
    · simp
    · match h : splitOnDash cs with
      | [] => exact absurd h ih
      | x :: t => simp

theorem splitOnDash_no_dash {l : List Char} (h : '-' ∉ l) : splitOnDash l = [l] := by
  induction l with
  | nil => rfl
  | cons c cs ih =>
    simp only [List.mem_cons] at h
    push_neg at h
    rw [splitOnDash, if_neg (fun hc => h.1 hc.symm), ih h.2]

theorem splitOnDash_append {l₁ : List Char} (l₂ : List Char) (h : '-' ∉ l₁) :
    splitOnDash (l₁ ++ '-' :: l₂) = l₁ :: splitOnDash l₂ := by
  induction l₁ with
  | nil => simp [splitOnDash]
  | cons c cs ih =>
    simp only [List.mem_cons] at h
    push_neg at h
    rw [List.cons_append, splitOnDash, if_neg (fun hc => h.1 hc.symm), ih h.2]

theorem startsWithChars_append (p rest : List Char) :
    startsWithChars p (p ++ rest) = true := by
  induction p with
  | nil => rfl
  | cons c cs ih => simp [startsWithChars, ih]

/-- Shared round-trip lemma for the custom-id encoding. -/
theorem decode_encode (i : Nat) : decodeCustomId (encodeCustomId i) = some i := by
  have hsplit : encodeCustomId i = "outcome".toList ++ '-' :: natDigits i := by
    rw [encodeCustomId]
    rfl
  rw [decodeCustomId, encodeCustomId, if_pos (startsWithChars_append _ _),
    ← encodeCustomId, hsplit, splitOnDash_append (natDigits i) (by decide),
    splitOnDash_no_dash (natDigits_no_dash i)]
  simp only [List.get?_cons_succ, List.get?_cons_zero]
  exact pyInt_natDigits i

/-- C6: encoding a record position into a request identifier and decoding
it back yields exactly the original position, for every position of the
store; the identifier is reversible to exactly one position
(`prepare_batch_request` line 172, `process_batch_results` lines 413-415). -/
theorem custom_id_round_trip (storeSize i : Nat) (hi : i < storeSize) :
    decodeCustomId (encodeCustomId i) = some i ∧
    ∀ j, encodeCustomId j = encodeCustomId i → j = i := by
  refine ⟨decode_encode i, fun j hj => ?_⟩
  have h1 := decode_encode j
  rw [hj, decode_encode i] at h1
  exact (Option.some_injective _ h1).symm

/-- Concrete witness for C6: position 3 of a store of 5 records. -/
theorem custom_id_round_trip_witness :
    (3 < 5) ∧ decodeCustomId (encodeCustomId 3) = some 3 :=
  ⟨by decide, (custom_id_round_trip 5 3 (by decide)).1⟩

/-! ## Job Monitor status dispatch (C3)

The polling loop's dispatch on the reported status, classify_outcomes_batch.py
lines 304-366: `completed` hands off to result processing, `failed` to the
retry layer, the listed running states keep polling, anything else makes the
worker give up on the batch. -/

inductive MonitorAction where
  | handleCompleted
  | handleFailed
  | keepPolling
  | giveUpUnexpected
deriving DecidableEq

/-- One dispatch of the monitor loop on the polled status string. -/
def monitorDispatch (status : String) : MonitorAction :=
  if status = "completed" then .handleCompleted
  else if status = "failed" then .handleFailed
  else if ["validating", "in_progress", "finalizing"].contains status then .keepPolling
  else .giveUpUnexpected

/-- C3 counterexample: the status `queued` falls into the
unexpected-status branch, so the monitor gives the batch up instead of
polling again, refuting the claim that every status in
`[queued, validating, in_progress, finalizing]` keeps the loop polling. -/
theorem monitor_queued_gives_up :
    monitorDispatch "queued" = MonitorAction.giveUpUnexpected ∧
    ¬ monitorDispatch "queued" = MonitorAction.keepPolling := by decide

/-- C3 (amended): the monitor keeps polling exactly on
`validating`, `in_progress`, `finalizing`; it exits the loop on
`completed`, `failed`, and every other value (including `queued`). -/
theorem monitor_loop_exits (st : String) :
    (monitorDispatch st = MonitorAction.keepPolling ↔
      (st = "validating" ∨ st = "in_progress" ∨ st = "finalizing")) ∧
    (monitorDispatch st = MonitorAction.handleCompleted ↔ st = "completed") ∧
    (monitorDispatch st = MonitorAction.handleFailed ↔ st = "failed") := by
  by_cases h1 : st = "completed"
  · subst h1; decide
  by_cases h2 : st = "failed"
  · subst h2; decide
  by_cases h3 : st = "validating"
  · subst h3; decide
  by_cases h4 : st = "in_progress"
  · subst h4; decide
  by_cases h5 : st = "finalizing"
  · subst h5; decide
  simp [monitorDispatch, h1, h2, h3, h4, h5]

/-- Witness for C3 (amended), at the concrete status `in_progress`. -/
theorem monitor_loop_exits_witness :
    monitorDispatch "in_progress" = MonitorAction.keepPolling :=
  (monitor_loop_exits "in_progress").1.mpr (Or.inr (Or.inl rfl))

/-! ## Top-category selection (C7)

`process_batch_results`, lines 426-429:

  `best_aim = ""` ; if the parsed score mapping is nonempty,
  `best_aim = max(confidence_scores, key=confidence_scores.get).strip()`.

Python's `max` scans the dict in insertion order (the order of keys in the
service's JSON response) and replaces the running best only on a strictly
greater value, so a tie is resolved in favour of the key that appears
first in the response mapping. -/

/-- A whitespace character in the sense of Python `str.strip()`. -/
def isSpaceCh (c : Char) : Bool := c = ' ' ∨ c = '\t' ∨ c = '\n' ∨ c = '\r'

/-- Embedding of Python `s.strip()`: drop leading and trailing whitespace
(structural, unlike `String.trim`, so that concrete runs evaluate). -/
def pyStrip (s : String) : String :=
  ⟨((s.data.dropWhile isSpaceCh).reverse.dropWhile isSpaceCh).reverse⟩

/-- Python `max(d, key=d.get)` over the remaining pairs, with running best
`best`: replace only on a strictly greater value. -/
def pyMaxPair : (String × Int) → List (String × Int) → (String × Int)
  | best, [] => best
  | best, q :: rest => pyMaxPair (if best.2 < q.2 then q else best) rest

/-- The selected top category of a parsed score mapping
(classify_outcomes_batch.py lines 427-429). -/
def best_aim_of (scores : List (String × Int)) : String :=
  match scores with
  | [] => ""
  | p :: rest => pyStrip (pyMaxPair p rest).1

/-- Modelled from the spec's words, for comparison: the top-scoring
taxonomy category with ties broken by first position in the canonical
`BYU_AIMS` order. -/
def best_aim_canonical (scores : List (String × Int)) : String :=
  match (scores.map Prod.snd).max? with
  | none => ""
  | some m => (BYU_AIMS.find? (fun a => dictFind? scores a == some m)).getD ""

theorem pyMaxPair_mem :
    ∀ (l : List (String × Int)) (best : String × Int), pyMaxPair best l ∈ best :: l := by
  intro l
  induction l with
  | nil => intro best; simp [pyMaxPair]
  | cons q rest ih =>
    intro best
    rw [pyMaxPair]
    have h := ih (if best.2 < q.2 then q else best)
    rcases List.mem_cons.mp h with h' | h'
    · rw [h']
      by_cases hb : best.2 < q.2
      · rw [if_pos hb]; exact List.mem_cons_of_mem _ (List.mem_cons_self _ _)
      · rw [if_neg hb]; exact List.mem_cons_self _ _
    · exact List.mem_cons_of_mem _ (List.mem_cons_of_mem _ h')

theorem pyMaxPair_ge :
    ∀ (l : List (String × Int)) (best : String × Int),
      ∀ q ∈ best :: l, q.2 ≤ (pyMaxPair best l).2 := by
  intro l
  induction l with
  | nil =>
    intro best q hq
    simp only [List.mem_singleton] at hq
    rw [hq, pyMaxPair]
  | cons r rest ih =>
    intro best q hq
    rw [pyMaxPair]
    have hb' : best.2 ≤ (if best.2 < r.2 then r else best).2 := by
      by_cases hb : best.2 < r.2
      · rw [if_pos hb]; omega
      · rw [if_neg hb]
    have hr' : r.2 ≤ (if best.2 < r.2 then r else best).2 := by
      by_cases hb : best.2 < r.2
      · rw [if_pos hb]
      · rw [if_neg hb]; omega
    have hhead := ih (if best.2 < r.2 then r else best) _
      (List.mem_cons_self (if best.2 < r.2 then r else best) rest)
    rcases List.mem_cons.mp hq with h' | h'
    · rw [h']; exact le_trans hb' hhead
    · rcases List.mem_cons.mp h' with h'' | h''
      · rw [h'']; exact le_trans hr' hhead
      · exact ih _ q (List.mem_cons_of_mem _ h'')

theorem pyMaxPair_stay :
    ∀ (l : List (String × Int)) (best : String × Int),
      (pyMaxPair best l).2 ≤ best.2 → pyMaxPair best l = best := by
  intro l
  induction l with
  | nil => intro best _; rfl
  | cons r rest ih =>
    intro best h
    rw [pyMaxPair] at h ⊢
    by_cases hb : best.2 < r.2
    · exfalso
      rw [if_pos hb] at h
      have := pyMaxPair_ge rest r r (List.mem_cons_self r rest)
      omega
    · rw [if_neg hb] at h ⊢
      exact ih best h

theorem pyMaxPair_find? :
    ∀ (l : List (String × Int)) (best : String × Int),
      best.2 < (pyMaxPair best l).2 →
      l.find? (fun q => q.2 == (pyMaxPair best l).2) = some (pyMaxPair best l) := by
  intro l
  induction l with
  | nil => intro best h; rw [pyMaxPair] at h; omega
  | cons r rest ih =>
    intro best h
    rw [pyMaxPair] at h ⊢
    by_cases hb : best.2 < r.2
    · rw [if_pos hb] at h ⊢
      by_cases hm : (pyMaxPair r rest).2 ≤ r.2
      · have heq := pyMaxPair_stay rest r hm
        rw [heq]
        exact List.find?_cons_of_pos _ (by simp)
      · push_neg at hm
        rw [List.find?_cons_of_neg _ (by simp; omega)]
        exact ih r hm
    · rw [if_neg hb] at h ⊢
      rw [List.find?_cons_of_neg _ (by simp; omega)]
      exact ih best h

/-- C7 counterexample: a response mapping listing
`Intellectually Enlarging` before `Spiritually Strengthening`, both at
score 50.  The code keeps the first key of the mapping, while the
canonical-taxonomy tie-break required by the claim picks
`Spiritually Strengthening`. -/
theorem best_aim_tie_counterexample :
    best_aim_of [("Intellectually Enlarging", 50), ("Spiritually Strengthening", 50)]
      = "Intellectually Enlarging" ∧
    best_aim_canonical [("Intellectually Enlarging", 50), ("Spiritually Strengthening", 50)]
      = "Spiritually Strengthening" ∧
    ¬ best_aim_of [("Intellectually Enlarging", 50), ("Spiritually Strengthening", 50)]
      = best_aim_canonical [("Intellectually Enlarging", 50), ("Spiritually Strengthening", 50)] := by
  refine ⟨rfl, ?_, by decide⟩
  rfl

/-- C7 (amended): the selected category is a maximal-score key of the
parsed mapping, and among maximal keys it is the one that appears first in
the mapping's own (response) order — not necessarily first in the
canonical `BYU_AIMS` order. -/
theorem best_aim_first_of_mapping (p : String × Int) (rest : List (String × Int)) :
    pyMaxPair p rest ∈ p :: rest ∧
    (∀ q ∈ p :: rest, q.2 ≤ (pyMaxPair p rest).2) ∧
    (p :: rest).find? (fun q => q.2 == (pyMaxPair p rest).2) = some (pyMaxPair p rest) ∧
    best_aim_of (p :: rest) = pyStrip (pyMaxPair p rest).1 := by
  refine ⟨pyMaxPair_mem rest p, pyMaxPair_ge rest p, ?_, rfl⟩
  by_cases hm : (pyMaxPair p rest).2 ≤ p.2
  · have heq := pyMaxPair_stay rest p hm
    rw [heq]
    exact List.find?_cons_of_pos _ (by simp)
  · push_neg at hm
    rw [List.find?_cons_of_neg _ (by simp; omega)]
    exact pyMaxPair_find? rest p hm

/-- Witness for C7 (amended) at a concrete two-key mapping. -/
theorem best_aim_first_of_mapping_witness :
    (("B", (5 : Int)) :: []).find?
        (fun q => q.2 == (pyMaxPair ("A", (3 : Int)) [("B", 5)]).2)
      = some (pyMaxPair ("A", 3) [("B", 5)]) ∧
    best_aim_of [("A", 3), ("B", 5)] = pyStrip (pyMaxPair ("A", 3) [("B", 5)]).1 := by
  have h := best_aim_first_of_mapping ("A", 3) [("B", 5)]
  refine ⟨?_, h.2.2.2⟩
  have h3 := h.2.2.1
  rw [List.find?_cons_of_neg _ (by decide)] at h3
  exact h3

/-! ## Retry/Splitter under a permanently failing Job (C1, C9)

`process_batch` (classify_outcomes_batch.py lines 282-376).  The scenario
of the claims: the batch was prepared and submitted once, and every poll
of every submitted job reports status `failed` (submissions themselves
succeed; no transient exception occurs).  Under that scenario the loop's
behaviour depends only on the retry counter, the shrinking range and the
valid-request count of the re-prepared slice (`vc s e` embeds the request
count `prepare_batch_request` reports for rows `[s, e)`).

Each outer iteration sleeps `CHECK_INTERVAL` (line 289), polls (line 293,
seeing `failed`), and then either resubmits — halving the upper bound
first from the second retry on (lines 339-343) — or gives up.  The trace
of these events is recorded explicitly.  The recursion argument `k` is the
remaining retry budget `max_retries - retry_count`. -/

inductive Ev where
  | sleep (d : Nat)
  | pollStatus (s : String)
  | submitJob (s e : Nat)
deriving DecidableEq

inductive RetryOutcome where
  | merged
  | abandoned
  | fatalError
deriving DecidableEq

/-- The monitor/retry loop under permanently failing jobs.  Arguments:
remaining retry budget `k = max_retries - retry_count`, current upper
bound `e`, current `retry_count` value `rc`. -/
def failLoop (vc : Nat → Nat → Nat) (s : Nat) : Nat → Nat → Nat → List Ev × RetryOutcome
  | 0, _, _ =>
    ([Ev.sleep CHECK_INTERVAL, Ev.pollStatus "failed"], RetryOutcome.abandoned)
  | k + 1, e, rc =>
    let rc' := rc + 1
    if 1 < rc' then
      let e' := s + (e - s) / 2
      if vc s e' = 0 then
        ([Ev.sleep CHECK_INTERVAL, Ev.pollStatus "failed"], RetryOutcome.abandoned)
      else
        let rest := failLoop vc s k e' rc'
        (Ev.sleep CHECK_INTERVAL :: Ev.pollStatus "failed" :: Ev.submitJob s e' :: rest.1,
         rest.2)
    else
      let rest := failLoop vc s k e rc'
      (Ev.sleep CHECK_INTERVAL :: Ev.pollStatus "failed" :: Ev.submitJob s e :: rest.1,
       rest.2)

/-- A full `process_batch` run on rows `[s, e)` whose every job fails: the
initial submission (line 277) followed by the monitor/retry loop starting
at `retry_count = 0`. -/
def always_fail_run (vc : Nat → Nat → Nat) (s e : Nat) : List Ev × RetryOutcome :=
  let r := failLoop vc s max_retries e 0
  (Ev.submitJob s e :: r.1, r.2)

/-- The ranges submitted as jobs, in order, in a trace. -/
def submitsOf (tr : List Ev) : List (Nat × Nat) :=
  tr.filterMap fun ev =>
    match ev with
    | Ev.submitJob a b => some (a, b)
    | _ => none

/-- Seconds slept between one job submission and the next in a trace; the
first entry is the wait before the first submission. -/
def interSubmitDelays : List Ev → Nat → List Nat
  | [], _ => []
  | Ev.sleep d :: tr, acc => interSubmitDelays tr (acc + d)
  | Ev.submitJob _ _ :: tr, acc => acc :: interSubmitDelays tr 0
  | Ev.pollStatus _ :: tr, acc => interSubmitDelays tr acc

theorem failLoop_outcome (vc : Nat → Nat → Nat) (s : Nat) :
    ∀ k e rc, (failLoop vc s k e rc).2 = RetryOutcome.abandoned := by
  intro k
  induction k with
  | zero => intro e rc; rfl
  | succ k ih =>
    intro e rc
    rw [failLoop]
    by_cases h1 : 1 < rc + 1
    · rw [if_pos h1]
      by_cases h2 : vc s (s + (e - s) / 2) = 0
      · rw [if_pos h2]
      · rw [if_neg h2]
        exact ih _ _
    · rw [if_neg h1]
      exact ih _ _

theorem failLoop_submit_count (vc : Nat → Nat → Nat) (s : Nat) :
    ∀ k e rc, (submitsOf (failLoop vc s k e rc).1).length ≤ k := by
  intro k
  induction k with
  | zero => intro e rc; simp [failLoop, submitsOf]
  | succ k ih =>
    intro e rc
    rw [failLoop]
    by_cases h1 : 1 < rc + 1
    · rw [if_pos h1]
      by_cases h2 : vc s (s + (e - s) / 2) = 0
      · rw [if_pos h2]; simp [submitsOf]
      · rw [if_neg h2]
        simp only [submitsOf, List.filterMap_cons]
        have := ih (s + (e - s) / 2) (rc + 1)
        simp only [submitsOf] at this
        simpa using Nat.succ_le_succ this
    · rw [if_neg h1]
      simp only [submitsOf, List.filterMap_cons]
      have := ih e (rc + 1)
      simp only [submitsOf] at this
      simpa using Nat.succ_le_succ this

/-- From the first retry on, every further submitted range is obtained
from its predecessor by halving the upper bound (keeping the first half);
the chain is anchored at the currently failing range `(s, e)`. -/
theorem failLoop_halving (vc : Nat → Nat → Nat) (s : Nat) :
    ∀ k e rc, 1 ≤ rc →
      List.Chain' (fun p q => q = (p.1, p.1 + (p.2 - p.1) / 2))
        ((s, e) :: submitsOf (failLoop vc s k e rc).1) := by
  intro k
  induction k with
  | zero =>
    intro e rc _
    simp [failLoop, submitsOf]
  | succ k ih =>
    intro e rc hrc
    rw [failLoop]
    have h1 : 1 < rc + 1 := by omega
    rw [if_pos h1]
    by_cases h2 : vc s (s + (e - s) / 2) = 0
    · rw [if_pos h2]; simp [submitsOf]
    · rw [if_neg h2]
      simp only [submitsOf, List.filterMap_cons]
      have := ih (s + (e - s) / 2) (rc + 1) (by omega)
      simp only [submitsOf] at this
      refine List.Chain'.cons ?_ (by simpa using this)
      rfl

/-- From the first retry on, the submitted range sizes strictly decrease
(the vanishing-range case is never submitted: an empty re-prepared slice
reports zero valid requests and the worker abandons instead). -/
theorem failLoop_shrinking (vc : Nat → Nat → Nat) (s : Nat)
    (hvc : ∀ a b, vc a b ≠ 0 → a < b) :
    ∀ k e rc, 1 ≤ rc → s < e →
      List.Chain' (fun p q => q.2 - q.1 < p.2 - p.1)
        ((s, e) :: submitsOf (failLoop vc s k e rc).1) := by
  intro k
  induction k with
  | zero =>
    intro e rc _ _
    simp [failLoop, submitsOf]
  | succ k ih =>
    intro e rc hrc he
    rw [failLoop]
    have h1 : 1 < rc + 1 := by omega
    rw [if_pos h1]
    by_cases h2 : vc s (s + (e - s) / 2) = 0
    · rw [if_pos h2]; simp [submitsOf]
    · rw [if_neg h2]
      have hlt : s < s + (e - s) / 2 := hvc _ _ h2
      simp only [submitsOf, List.filterMap_cons]
      have := ih (s + (e - s) / 2) (rc + 1) (by omega) hlt
      simp only [submitsOf] at this
      refine List.Chain'.cons ?_ (by simpa using this)
      omega

/-- C1: for a job that always fails, `process_batch` resubmits at most
`max_retries` (3) times; the first retry resubmits the same range, every
retry beyond the first halves the range's upper bound (keeping the first
half), so the affected range size strictly decreases on each retry beyond
the first; once the counter is exhausted the remaining range is abandoned
without a fatal error (classify_outcomes_batch.py lines 334-361). -/
theorem bounded_retry (vc : Nat → Nat → Nat) (s e : Nat)
    (hvc : ∀ a b, vc a b ≠ 0 → a < b) (hse : s < e) :
    (submitsOf (always_fail_run vc s e).1).length ≤ 1 + max_retries ∧
    (submitsOf (always_fail_run vc s e).1).head? = some (s, e) ∧
    (submitsOf (always_fail_run vc s e).1).tail.head? = some (s, e) ∧
    List.Chain' (fun p q => q = (p.1, p.1 + (p.2 - p.1) / 2))
      (submitsOf (always_fail_run vc s e).1).tail ∧
    List.Chain' (fun p q => q.2 - q.1 < p.2 - p.1)
      (submitsOf (always_fail_run vc s e).1).tail ∧
    (always_fail_run vc s e).2 = RetryOutcome.abandoned := by
  have hunfold : always_fail_run vc s e =
      (Ev.submitJob s e :: Ev.sleep CHECK_INTERVAL :: Ev.pollStatus "failed" ::
        Ev.submitJob s e :: (failLoop vc s 2 e 1).1, (failLoop vc s 2 e 1).2) := rfl
  rw [hunfold]
  simp only [submitsOf, List.filterMap_cons]
  constructor
  · have := failLoop_submit_count vc s 2 e 1
    simp only [submitsOf] at this
    simp only [max_retries]
    simpa using Nat.succ_le_succ (Nat.succ_le_succ this)
  refine ⟨rfl, rfl, ?_, ?_, ?_⟩
  · have := failLoop_halving vc s 2 e 1 (by omega)
    simpa [submitsOf] using this
  · have := failLoop_shrinking vc s hvc 2 e 1 (by omega) hse
    simpa [submitsOf] using this
  · exact failLoop_outcome vc s 2 e 1

/-- Concrete witness for C1: an 8-row range with every row valid. -/
theorem bounded_retry_witness :
    (submitsOf (always_fail_run (fun a b => b - a) 0 8).1).length ≤ 1 + max_retries ∧
    (submitsOf (always_fail_run (fun a b => b - a) 0 8).1).head? = some (0, 8) ∧
    List.Chain' (fun p q => q.2 - q.1 < p.2 - p.1)
      (submitsOf (always_fail_run (fun a b => b - a) 0 8).1).tail ∧
    (always_fail_run (fun a b => b - a) 0 8).2 = RetryOutcome.abandoned := by
  have h := bounded_retry (fun a b => b - a) 0 8
    (fun a b hab => by have hba : b - a ≠ 0 := hab; omega) (by omega)
  exact ⟨h.1, h.2.1, h.2.2.2.2.1, h.2.2.2.2.2⟩

/-- C9 counterexample: the claimed exponential backoff between successive
submission attempts does not exist — for the concrete always-failing run
on rows `[0, 8)` the waits separating the four submissions are
`[30, 30, 30]` seconds, which is not strictly increasing. -/
theorem no_exponential_backoff :
    (interSubmitDelays (always_fail_run (fun a b => b - a) 0 8).1 0).tail
      = [CHECK_INTERVAL, CHECK_INTERVAL, CHECK_INTERVAL] ∧
    ¬ List.Chain' (fun a b => a < b)
        ((interSubmitDelays (always_fail_run (fun a b => b - a) 0 8).1 0).tail) := by
  constructor
  · rfl
  · intro h
    have : CHECK_INTERVAL < CHECK_INTERVAL := by
      have h2 := h
      rw [show (interSubmitDelays (always_fail_run (fun a b => b - a) 0 8).1 0).tail
        = [CHECK_INTERVAL, CHECK_INTERVAL, CHECK_INTERVAL] from rfl] at h2
      exact List.chain'_cons.mp h2 |>.1
    omega

theorem failLoop_sleeps (vc : Nat → Nat → Nat) (s : Nat) :
    ∀ k e rc d, Ev.sleep d ∈ (failLoop vc s k e rc).1 → d = CHECK_INTERVAL := by
  intro k
  induction k with
  | zero =>
    intro e rc d hd
    simp only [failLoop, List.mem_cons, List.mem_singleton] at hd
    rcases hd with h | h | h
    · exact (Ev.sleep.injEq _ _).mp h.symm ▸ rfl
    · cases h
    · cases h
  | succ k ih =>
    intro e rc d hd
    rw [failLoop] at hd
    by_cases h1 : 1 < rc + 1
    · rw [if_pos h1] at hd
      by_cases h2 : vc s (s + (e - s) / 2) = 0
      · rw [if_pos h2] at hd
        simp only [List.mem_cons, List.mem_singleton] at hd
        rcases hd with h | h | h
        · exact (Ev.sleep.injEq _ _).mp h.symm ▸ rfl
        · cases h
        · cases h
      · rw [if_neg h2] at hd
        simp only [List.mem_cons] at hd
        rcases hd with h | h | h | h
        · exact (Ev.sleep.injEq _ _).mp h.symm ▸ rfl
        · cases h
        · cases h
        · exact ih _ _ d h
    · rw [if_neg h1] at hd
      simp only [List.mem_cons] at hd
      rcases hd with h | h | h | h
      · exact (Ev.sleep.injEq _ _).mp h.symm ▸ rfl
      · cases h
      · cases h
      · exact ih _ _ d h

theorem failLoop_delays (vc : Nat → Nat → Nat) (s : Nat) :
    ∀ k e rc d, d ∈ interSubmitDelays (failLoop vc s k e rc).1 0 →
      d = CHECK_INTERVAL := by
  intro k
  induction k with
  | zero =>
    intro e rc d hd
    simp [failLoop, interSubmitDelays] at hd
  | succ k ih =>
    intro e rc d hd
    rw [failLoop] at hd
    by_cases h1 : 1 < rc + 1
    · rw [if_pos h1] at hd
      by_cases h2 : vc s (s + (e - s) / 2) = 0
      · rw [if_pos h2] at hd
        simp [interSubmitDelays] at hd
      · rw [if_neg h2] at hd
        simp only [interSubmitDelays, Nat.zero_add, List.mem_cons] at hd
        rcases hd with h | h
        · exact h
        · exact ih _ _ d h
    · rw [if_neg h1] at hd
      simp only [interSubmitDelays, Nat.zero_add, List.mem_cons] at hd
      rcases hd with h | h
      · exact h
      · exact ih _ _ d h

/-- C9 (amended): every wait in the monitor/retry loop — both the wait
between consecutive status polls and the wait separating one submission
attempt from the next — is the same fixed `CHECK_INTERVAL`; neither layer
uses exponential backoff (classify_outcomes_batch.py lines 286-376, every
wait is `time.sleep(CHECK_INTERVAL)`). -/
theorem fixed_interval_everywhere (vc : Nat → Nat → Nat) (s e : Nat) :
    (∀ d, Ev.sleep d ∈ (always_fail_run vc s e).1 → d = CHECK_INTERVAL) ∧
    (∀ d, d ∈ (interSubmitDelays (always_fail_run vc s e).1 0).tail →
      d = CHECK_INTERVAL) := by
  constructor
  · intro d hd
    simp only [always_fail_run, List.mem_cons] at hd
    rcases hd with h | h
    · cases h
    · exact failLoop_sleeps vc s max_retries e 0 d h
  · intro d hd
    have hshape : interSubmitDelays (always_fail_run vc s e).1 0
        = 0 :: interSubmitDelays (failLoop vc s max_retries e 0).1 0 := rfl
    rw [hshape] at hd
    exact failLoop_delays vc s max_retries e 0 d hd

/-- Witness for C9 (amended) on a concrete always-failing run. -/
theorem fixed_interval_everywhere_witness :
    Ev.sleep CHECK_INTERVAL ∈ (always_fail_run (fun a b => b - a) 0 8).1 ∧
    (30 ∈ (interSubmitDelays (always_fail_run (fun a b => b - a) 0 8).1 0).tail →
      (30 : Nat) = CHECK_INTERVAL) :=
  ⟨by decide, fun h => (fixed_interval_everywhere (fun a b => b - a) 0 8).2 30 h⟩

/-! ## Batch Builder (C8)

`prepare_batch_request` (classify_outcomes_batch.py lines 143-222): walk
the dataframe slice `[start_idx, end_idx)`, skip rows whose title and
details are both blank after stripping, render the outcome text and tag
each surviving request with `outcome-{i}`.  A row field is `none` for a
pandas NaN, `some s` for a string. -/

structure OutcomeRow where
  learning_outcome_title : Option String
  learning_outcome_details : Option String
deriving DecidableEq

/-- `pd.isna(f) or not f.strip()` (lines 159, 164, 166). -/
def fieldBlank : Option String → Bool
  | none => true
  | some s => pyStrip s = ""

/-- Both text fields blank: the row is skipped (line 159). -/
def recEmpty (r : OutcomeRow) : Bool :=
  fieldBlank r.learning_outcome_title && fieldBlank r.learning_outcome_details

/-- The stripped text of an optional field. -/
def optText : Option String → String
  | none => ""
  | some s => pyStrip s

/-- The rendered outcome text (lines 164-169). -/
def outcomeText (r : OutcomeRow) : String :=
  if fieldBlank r.learning_outcome_title then optText r.learning_outcome_details
  else if fieldBlank r.learning_outcome_details then optText r.learning_outcome_title
  else "Title: " ++ optText r.learning_outcome_title ++
    "\nDetails: " ++ optText r.learning_outcome_details

structure BatchRequest where
  custom_id : List Char
  user_text : String
deriving DecidableEq

/-- The request manifest built for rows `[s, e)` of the store. -/
def prepare_batch_request (df : List OutcomeRow) (s e : Nat) : List BatchRequest :=
  (df.enum.filter (fun ir => decide (s ≤ ir.1) && decide (ir.1 < e))).filterMap
    (fun ir =>
      if recEmpty ir.2 then none
      else some ⟨encodeCustomId ir.1, outcomeText ir.2⟩)

theorem encodeCustomId_inj {i j : Nat} (h : encodeCustomId i = encodeCustomId j) :
    i = j := by
  have h1 := decode_encode i
  rw [h, decode_encode j] at h1
  exact (Option.some_inj.mp h1).symm

/-! ## Result Merger (C10 and the completed-job path)

`process_batch_results` (lines 379-448).  A `RespLine` is one
already-JSON-parsed line of the downloaded output: its `custom_id` and the
`choices` array, where each choice carries the parse of its message
content (`none` when the content is not valid JSON, in which case the line
is logged and skipped; a missing `message`/`content` field defaults to the
empty mapping `some []`, mirroring the `.get(..., "{}")` defaults). -/

structure ResultEntry where
  scores : List (String × Int)
  best_aim : String
deriving DecidableEq

structure RespLine where
  custom_id : List Char
  choices : List (Option (List (String × Int)))
deriving DecidableEq

/-- Processing of one output line (lines 410-437): recover the row index
from the custom id, take the first choice's parsed content, build the
entry with the top-scoring category (empty mapping gives `best_aim = ""`,
line 427). -/
def processResultLine (line : RespLine) : Option (Nat × ResultEntry) :=
  match decodeCustomId line.custom_id with
  | none => none
  | some row_idx =>
    match line.choices.head? with
    | none => none
    | some none => none
    | some (some confidence_scores) =>
        some (row_idx, ⟨confidence_scores, best_aim_of confidence_scores⟩)

/-- The results dict of a completed job: the parsed lines inserted into a
fresh dict in file order (`results_dict[row_idx] = ...`, line 432). -/
def process_batch_results (lines : List RespLine) : List (Nat × ResultEntry) :=
  (lines.filterMap processResultLine).foldl (fun m p => dictAssign m p.1 p.2) []

/-! ## Checkpoint Writer

`apply_results_to_df` (lines 471-503): one output row per input row,
confidence columns set only for aims present in the row's score mapping,
`best_aim` set only when non-empty (`if best_aim:` at line 500). -/

structure OutRow where
  row : OutcomeRow
  confidences : List (String × Option Int)
  best_aim : Option String
deriving DecidableEq

def apply_results_to_df (df : List OutcomeRow) (results : List (Nat × ResultEntry)) :
    List OutRow :=
  df.enum.map (fun ir =>
    match dictFind? results ir.1 with
    | none => ⟨ir.2, BYU_AIMS.map (fun aim => (aim, none)), none⟩
    | some entry =>
        ⟨ir.2,
         BYU_AIMS.map (fun aim => (aim, dictFind? entry.scores aim)),
         if entry.best_aim = "" then none else some entry.best_aim⟩)

/-! ## Worker and run model (C4)

`process_batch` (lines 260-376) and `main` (lines 506-614).  The external
world is an explicit environment: per batch worker, whether the initial
and per-retry preparations succeed internally, whether each job creation
succeeds (`create_batch_job` returns `None` on failure), and the decisive
outcome of each monitoring stint.  A stint is one entry into the inner
polling loop; its outcome is the reason that loop exits — job `completed`
(with the already-parsed results dictionary, empty when result processing
failed internally), job `failed`, an unrecognized status, or an exception
while polling (all non-terminal polls inside a stint only sleep and log,
so they do not affect state).  The per-run environment additionally fixes
whether the API key is present (`load_api_key` raises `ValueError`
otherwise, caught at lines 522-524) and whether the input store is
readable (`pd.read_csv` raises otherwise, caught by the handler at lines
611-614). -/

inductive StintOutcome where
  | completedJob (res : List (Nat × ResultEntry))
  | failedJob
  | unexpectedStatus (s : String)
  | monitorExn
deriving DecidableEq

structure WorkerEnv where
  prepOk : Bool
  retryPrepOk : Nat → Bool
  submitOk : Nat → Bool
  stint : Nat → StintOutcome

structure WorkerResult where
  submits : Nat
  contrib : List (Nat × ResultEntry)
deriving DecidableEq

/-- The monitor/retry loop of `process_batch` (lines 286-376).  Arguments:
remaining retry budget `k = max_retries - retry_count`, upper bound `e`,
`retry_count` value `rc`, stint index `si`, jobs created so far `sc`.
Every branch of the source loop `return`s or continues the loop with a
strictly larger `retry_count`; no branch raises, so the result type has no
error case. -/
def monitorLoop (we : WorkerEnv) (df : List OutcomeRow) (s : Nat) :
    Nat → Nat → Nat → Nat → Nat → WorkerResult
  | 0, _, _, si, sc =>
    match we.stint si with
    | StintOutcome.completedJob res => ⟨sc, res⟩
    | _ => ⟨sc, []⟩
  | k + 1, e, rc, si, sc =>
    match we.stint si with
    | StintOutcome.completedJob res => ⟨sc, res⟩
    | StintOutcome.unexpectedStatus _ => ⟨sc, []⟩
    | StintOutcome.failedJob =>
        let rc' := rc + 1
        if 1 < rc' then
          let e' := s + (e - s) / 2
          if we.retryPrepOk rc' = false ∨ (prepare_batch_request df s e').length = 0 then
            ⟨sc, []⟩
          else if we.submitOk sc = false then ⟨sc, []⟩
          else monitorLoop we df s k e' rc' (si + 1) (sc + 1)
        else
          if we.submitOk sc = false then ⟨sc, []⟩
          else monitorLoop we df s k e rc' (si + 1) (sc + 1)
    | StintOutcome.monitorExn => monitorLoop we df s k e (rc + 1) (si + 1) sc

/-- One worker's `process_batch` on rows `[s, e)`: skip on preparation
failure or empty manifest (lines 271-274), return on job-creation failure
(lines 277-280), otherwise monitor with `retry_count = 0`.  Returns the
number of jobs created and the results contributed to the shared ledger. -/
def process_batch (we : WorkerEnv) (df : List OutcomeRow) (s e : Nat) : WorkerResult :=
  if we.prepOk = false ∨ (prepare_batch_request df s e).length = 0 then ⟨0, []⟩
  else if we.submitOk 0 = false then ⟨0, []⟩
  else monitorLoop we df s max_retries e 0 0 1

/-- The run-level failure axes of `main`, in program order:
`load_api_key` may raise `ValueError` (line 519, caught at 522-524);
`os.makedirs(TEMP_DIR, exist_ok=True)` may raise (line 527 — between the
two `try` blocks, so nothing catches it); `pd.read_csv` may raise
(line 531, caught by the handler at 611-614); the final
`final_df.to_csv` may raise (line 605, caught by the same handler at
611-614). -/
structure RunEnv where
  apiKeyPresent : Bool
  tempDirCreatable : Bool
  inputReadable : Bool
  outputWritable : Bool
  records : List OutcomeRow
  batchSize : Nat
  workers : Nat → WorkerEnv

inductive MainOutcome where
  /-- `except ValueError` at lines 522-524: print and return. -/
  | abortedCredentials
  /-- An exception raised outside every handler (line 527): the process
  dies with a traceback and a non-zero exit. -/
  | uncaughtError
  /-- The catch-all `except Exception` at lines 611-614: print the error
  and return; fires for any failure inside the big `try`, among them an
  unreadable input store and a failed final output write. -/
  | abortedError
  | finished (ledger : List (Nat × ResultEntry)) (output : List OutRow)
deriving DecidableEq

/-- `num_batches = (total_rows + BATCH_SIZE - 1) // BATCH_SIZE` (line 547). -/
def num_batches (total_rows B : Nat) : Nat := (total_rows + B - 1) / B

/-- The ledger accumulated over all batch workers; each completed worker's
contribution is merged into `all_results` under the lock (lines 309-316;
merges of distinct workers are serialized by the lock, here linearized in
batch order, which the identity-keyed upsert makes order-insensitive). -/
def runLedger (env : RunEnv) : List (Nat × ResultEntry) :=
  (List.range (num_batches env.records.length env.batchSize)).foldl
    (fun led i =>
      dictUpdate led
        (process_batch (env.workers i) env.records (i * env.batchSize)
          (min (i * env.batchSize + env.batchSize) env.records.length)).contrib)
    []

/-- `main` (lines 506-614): `load_api_key` under its own handler (lines
517-524), then the unguarded `os.makedirs(TEMP_DIR, exist_ok=True)` (line
527), then the big `try` — read the input store (line 531), run every
batch worker, write the final joined output (lines 602-605) — whose
failures land in the catch-all at lines 611-614. -/
def main_run (env : RunEnv) : MainOutcome :=
  if env.apiKeyPresent = false then MainOutcome.abortedCredentials
  else if env.tempDirCreatable = false then MainOutcome.uncaughtError
  else if env.inputReadable = false then MainOutcome.abortedError
  else if env.outputWritable = false then MainOutcome.abortedError
  else MainOutcome.finished (runLedger env)
    (apply_results_to_df env.records (runLedger env))

/-- A run whose only defect is an uncreatable temp directory. -/
def envTempDirFail : RunEnv :=
  ⟨true, false, true, true, [], 1000,
   fun _ => ⟨true, fun _ => true, fun _ => true, fun _ => StintOutcome.failedJob⟩⟩

/-- A run whose only defect is an unwritable final output path. -/
def envOutputFail : RunEnv :=
  ⟨true, true, true, false, [], 1000,
   fun _ => ⟨true, fun _ => true, fun _ => true, fun _ => StintOutcome.failedJob⟩⟩

/-- C4 counterexample: the claim's "exactly two fatal conditions" is false
of the program.  With credentials present and the input store readable, an
uncreatable temp directory still aborts the run — `os.makedirs` at line
527 sits outside both handlers, so the exception is uncaught and
process-aborting — and a failed final output write also aborts the run
through the very handler (lines 611-614) that the unreadable-input case
uses. -/
theorem fatal_conditions_counterexample :
    envTempDirFail.apiKeyPresent = true ∧ envTempDirFail.inputReadable = true ∧
    main_run envTempDirFail = MainOutcome.uncaughtError ∧
    envOutputFail.apiKeyPresent = true ∧ envOutputFail.inputReadable = true ∧
    main_run envOutputFail = MainOutcome.abortedError := by decide

/-- C4 (amended): no failure inside a single batch's pipeline ever keeps
the run from finishing — the worker `process_batch` is total over every
worker environment (preparation, submission, monitoring, result-parsing
failures, cf. the spec's error taxonomy) — while the run-level aborts are
characterized exactly: missing credentials (caught, early return); an
uncreatable temp directory (uncaught, process-aborting); and any failure
reaching the catch-all handler, namely an unreadable input store or a
failed final output write. -/
theorem error_containment (env : RunEnv) :
    (main_run env = MainOutcome.abortedCredentials ↔ env.apiKeyPresent = false) ∧
    (main_run env = MainOutcome.uncaughtError ↔
      (env.apiKeyPresent = true ∧ env.tempDirCreatable = false)) ∧
    (main_run env = MainOutcome.abortedError ↔
      (env.apiKeyPresent = true ∧ env.tempDirCreatable = true ∧
        (env.inputReadable = false ∨
          (env.inputReadable = true ∧ env.outputWritable = false)))) ∧
    (env.apiKeyPresent = true → env.tempDirCreatable = true →
      env.inputReadable = true → env.outputWritable = true →
      main_run env = MainOutcome.finished (runLedger env)
        (apply_results_to_df env.records (runLedger env))) := by
  unfold main_run
  rcases henv : env.apiKeyPresent with _ | _ <;>
    rcases ht : env.tempDirCreatable with _ | _ <;>
      rcases hr : env.inputReadable with _ | _ <;>
        rcases hw : env.outputWritable with _ | _ <;>
          simp

/-- A run environment whose single worker fails permanently. -/
def envAllFail : RunEnv :=
  ⟨true, true, true, true, [⟨some "Outcome A", none⟩], 1000,
   fun _ => ⟨true, fun _ => true, fun _ => true, fun _ => StintOutcome.failedJob⟩⟩

/-- Witness for C4 (amended): even with every job of the only batch
failing, the run still reaches the final output. -/
theorem error_containment_witness :
    main_run envAllFail = MainOutcome.finished (runLedger envAllFail)
      (apply_results_to_df envAllFail.records (runLedger envAllFail)) :=
  (error_containment envAllFail).2.2.2 rfl rfl rfl rfl

/-! ## C8: blank rows are skipped; the A/B/C example -/

/-- Three records; only B (position 1) has entirely blank content. -/
def dfABC : List OutcomeRow :=
  [⟨some "Outcome A", some "Details A"⟩,
   ⟨some "", some " "⟩,
   ⟨some "Outcome C", none⟩]

def scoresA : List (String × Int) :=
  [("Spiritually Strengthening", 10), ("Intellectually Enlarging", 90),
   ("Character Building", 40), ("Lifelong Learning and Service", 60)]

def scoresC : List (String × Int) :=
  [("Spiritually Strengthening", 80), ("Intellectually Enlarging", 20),
   ("Character Building", 50), ("Lifelong Learning and Service", 70)]

/-- The completed job's output lines for the two submitted requests. -/
def linesAC : List RespLine :=
  [⟨encodeCustomId 0, [some scoresA]⟩, ⟨encodeCustomId 2, [some scoresC]⟩]

/-- A run on the A/B/C store whose single batch job completes with
`linesAC`. -/
def envABC : RunEnv :=
  ⟨true, true, true, true, dfABC, 3,
   fun _ => ⟨true, fun _ => true, fun _ => true,
             fun _ => StintOutcome.completedJob (process_batch_results linesAC)⟩⟩

/-- C8: a record with both text fields blank after stripping is never
given a request in any manifest; a range with zero valid requests is never
submitted as a job; and on the three-record A/B/C example with B blank the
manifest holds exactly the requests for A and C, the ledger of a
successful run holds exactly the entries of A and C, and the checkpoint
still has three rows with B's classification columns unset. -/
theorem blank_rows_skipped :
    (∀ (df : List OutcomeRow) (s e i : Nat) (hi : i < df.length),
      recEmpty df[i] = true →
      ∀ rq ∈ prepare_batch_request df s e, ¬ rq.custom_id = encodeCustomId i) ∧
    (∀ (we : WorkerEnv) (df : List OutcomeRow) (s e : Nat),
      (prepare_batch_request df s e).length = 0 →
      (process_batch we df s e).submits = 0) ∧
    (prepare_batch_request dfABC 0 3).map (fun rq => rq.custom_id)
      = [encodeCustomId 0, encodeCustomId 2] ∧
    (runLedger envABC).map Prod.fst = [0, 2] ∧
    (apply_results_to_df dfABC (runLedger envABC)).length = 3 ∧
    ((apply_results_to_df dfABC (runLedger envABC))[1]?).map (fun row => row.best_aim)
      = some none ∧
    ((apply_results_to_df dfABC (runLedger envABC))[1]?).map (fun row => row.confidences)
      = some (BYU_AIMS.map (fun aim => (aim, none))) := by
  refine ⟨?_, ?_, by decide, by decide, by decide, by decide, by decide⟩
  · intro df s e i hi hempty rq hrq hceq
    unfold prepare_batch_request at hrq
    rcases List.mem_filterMap.mp hrq with ⟨ir, hir, hir2⟩
    by_cases hre : recEmpty ir.2
    · rw [if_pos hre] at hir2; cases hir2
    · rw [if_neg hre] at hir2
      have hrq2 : rq = ⟨encodeCustomId ir.1, outcomeText ir.2⟩ := (Option.some_inj.mp hir2).symm
      rw [hrq2] at hceq
      have hii : ir.1 = i := encodeCustomId_inj hceq
      have hmem : ir ∈ df.enum := List.mem_of_mem_filter hir
      have hget := List.mem_enum_iff_getElem?.mp hmem
      rw [hii, List.getElem?_eq_getElem hi] at hget
      have hval : ir.2 = df[i] := Option.some_inj.mp hget.symm
      rw [hval] at hre
      exact hre hempty
  · intro we df s e h
    unfold process_batch
    rw [if_pos (Or.inr h)]

/-- Witness for C8's universally quantified parts, on the concrete store. -/
theorem blank_rows_skipped_witness :
    (∀ rq ∈ prepare_batch_request dfABC 0 3, ¬ rq.custom_id = encodeCustomId 1) ∧
    (process_batch ⟨true, fun _ => true, fun _ => true, fun _ => StintOutcome.failedJob⟩
      dfABC 1 1).submits = 0 :=
  ⟨(blank_rows_skipped.1 dfABC 0 3 1 (by decide) (by decide)),
   (blank_rows_skipped.2.1 _ dfABC 1 1 (by decide))⟩

/-! ## C10: an empty score mapping still enters the ledger -/

/-- C10: a line that parses to the empty score mapping produces an entry
with `best_aim = ""`; that entry is merged into the shared ledger (so the
identity is present and counted), while the checkpoint leaves the row's
selected-category and confidence columns unset. -/
theorem empty_mapping_still_merged (i : Nat) (df : List OutcomeRow)
    (L : List (Nat × ResultEntry)) (hi : i < df.length) :
    processResultLine ⟨encodeCustomId i, [some []]⟩
      = some (i, ⟨[], ""⟩) ∧
    hasKey (dictUpdate L [(i, (⟨[], ""⟩ : ResultEntry))]) i = true ∧
    dictUpdate [] [(i, (⟨[], ""⟩ : ResultEntry))] = [(i, ⟨[], ""⟩)] ∧
    ((apply_results_to_df df (dictUpdate [] [(i, (⟨[], ""⟩ : ResultEntry))]))[i]?).map
        (fun row => row.best_aim) = some none ∧
    ((apply_results_to_df df (dictUpdate [] [(i, (⟨[], ""⟩ : ResultEntry))]))[i]?).map
        (fun row => row.confidences)
      = some (BYU_AIMS.map (fun aim => (aim, none))) := by
  have hsingle : dictUpdate ([] : List (Nat × ResultEntry)) [(i, ⟨[], ""⟩)]
      = [(i, ⟨[], ""⟩)] := by
    simp [dictUpdate, dictAssign, hasKey]
  have hrow : (apply_results_to_df df [(i, (⟨[], ""⟩ : ResultEntry))])[i]?
      = some ⟨df[i], BYU_AIMS.map (fun aim => (aim, none)), none⟩ := by
    unfold apply_results_to_df
    rw [List.getElem?_map, List.getElem?_enum, List.getElem?_eq_getElem hi]
    simp [dictFind?]
  refine ⟨?_, ?_, hsingle, ?_, ?_⟩
  · simp [processResultLine, decode_encode, best_aim_of]
  · exact hasKey_dictAssign_self L i ⟨[], ""⟩
  · rw [hsingle, hrow]; rfl
  · rw [hsingle, hrow]; rfl

/-- Witness for C10 at row 1 of a two-record store. -/
theorem empty_mapping_still_merged_witness :
    processResultLine ⟨encodeCustomId 1, [some []]⟩ = some (1, ⟨[], ""⟩) ∧
    dictUpdate [] [(1, (⟨[], ""⟩ : ResultEntry))] = [(1, ⟨[], ""⟩)] :=
  ⟨(empty_mapping_still_merged 1 [⟨some "A", none⟩, ⟨some "B", none⟩] [] (by decide)).1,
   (empty_mapping_still_merged 1 [⟨some "A", none⟩, ⟨some "B", none⟩] [] (by decide)).2.2.1⟩

/-! ## Resumability of the pipeline (C2)

classify_outcomes.py, `main` lines 204-237 and the merge-on-save logic
(lines 275-333): rows are keyed by
`create_key = f"{course_name}-{learning_outcome_id}"`; on startup the keys
of every checkpoint row with a non-empty classification (`best_aim` not
NaN — every row this script writes has it set) are collected and rows with
those keys are excluded from processing; newly classified rows are
appended to the checkpoint, deduplicated against the keys already present.
The classifier is the external capability, embedded as a deterministic
function returning `none` for rows it cannot classify (empty content,
API or parse failure). -/

structure SeqRow where
  course_name : String
  learning_outcome_id : String
  learning_outcome_title : Option String
  learning_outcome_details : Option String
deriving DecidableEq

/-- `create_key` (classify_outcomes.py lines 174-176). -/
def create_key (r : SeqRow) : String :=
  r.course_name ++ "-" ++ r.learning_outcome_id

/-- The keys of checkpoint rows with a non-empty classification (lines
208-218; every row the script writes carries `best_aim`). -/
def already_processed_keys {R : Type} (checkpoint : List (SeqRow × R)) : List String :=
  checkpoint.map (fun p => create_key p.1)

/-- The rows submitted for classification on this run (lines 226-227). -/
def unprocessed_rows {R : Type} (checkpoint : List (SeqRow × R))
    (input : List SeqRow) : List SeqRow :=
  input.filter (fun r => !((already_processed_keys checkpoint).contains (create_key r)))

/-- A full run starting from a checkpoint: classify every unprocessed row
in order and append the successful classifications to the checkpoint
(lines 253-333). -/
def run_from {R : Type} (classify : SeqRow → Option R)
    (checkpoint : List (SeqRow × R)) (input : List SeqRow) : List (SeqRow × R) :=
  checkpoint ++
    (unprocessed_rows checkpoint input).filterMap
      (fun r => (classify r).map (fun c => (r, c)))

/-- The checkpoint left by a run interrupted after the first `j` input
rows were attempted (successes only are on disk). -/
def checkpoint_after {R : Type} (classify : SeqRow → Option R)
    (input : List SeqRow) (j : Nat) : List (SeqRow × R) :=
  (input.take j).filterMap (fun r => (classify r).map (fun c => (r, c)))

theorem mem_checkpoint_after {R : Type} {classify : SeqRow → Option R}
    {input : List SeqRow} {j : Nat} {q : SeqRow × R}
    (hq : q ∈ checkpoint_after classify input j) :
    q.1 ∈ input.take j ∧ classify q.1 = some q.2 := by
  rw [checkpoint_after] at hq
  rcases List.mem_filterMap.mp hq with ⟨a, ha, hfa⟩
  rcases hfa' : classify a with _ | c
  · rw [hfa'] at hfa; cases hfa
  · rw [hfa'] at hfa
    simp only [Option.map_some', Option.some_inj] at hfa
    rw [← hfa]
    exact ⟨ha, hfa'⟩

theorem checkpoint_after_mem {R : Type} {classify : SeqRow → Option R}
    {input : List SeqRow} {j : Nat} {r : SeqRow} {c : R}
    (hr : r ∈ input.take j) (hc : classify r = some c) :
    (r, c) ∈ checkpoint_after classify input j := by
  rw [checkpoint_after]
  exact List.mem_filterMap.mpr ⟨r, hr, by rw [hc]; rfl⟩

/-- C2: rerunning with the same input after an interruption (a) submits no
row whose key the prior checkpoint already holds with a classification,
and (b) ends with exactly the checkpoint a single uninterrupted run
produces — the union of the two runs' ledgers is the one-run ledger.  The
input keys are assumed pairwise distinct (the spec's identity invariant)
and the classifier deterministic. -/
theorem resumability {R : Type} (classify : SeqRow → Option R)
    (input : List SeqRow) (j : Nat)
    (hkeys : (input.map create_key).Nodup) :
    (∀ r ∈ unprocessed_rows (checkpoint_after classify input j) input,
      create_key r ∉ already_processed_keys (checkpoint_after classify input j)) ∧
    run_from classify (checkpoint_after classify input j) input
      = run_from classify [] input := by
  constructor
  · intro r hr
    rw [unprocessed_rows, List.mem_filter] at hr
    simpa using hr.2
  · rw [run_from, run_from]
    have h0 : unprocessed_rows ([] : List (SeqRow × R)) input = input := by
      simp [unprocessed_rows, already_processed_keys]
    rw [h0]
    set P : SeqRow → Bool := fun r =>
      !((already_processed_keys (checkpoint_after classify input j)).contains
        (create_key r)) with hP
    have hsplit : input.filter P = (input.take j).filter P ++ input.drop j := by
      conv_lhs => rw [← List.take_append_drop j input]
      rw [List.filter_append]
      congr 1
      rw [List.filter_eq_self]
      intro r hrd
      rw [hP]
      simp only [Bool.not_eq_true']
      by_contra hcon
      rw [Bool.not_eq_false] at hcon
      have hmem : create_key r ∈ already_processed_keys (checkpoint_after classify input j) := by
        simpa using hcon
      rcases List.mem_map.mp hmem with ⟨q, hq, hqk⟩
      have hq1 := (mem_checkpoint_after hq).1
      have htk : create_key q.1 ∈ (input.take j).map create_key :=
        List.mem_map.mpr ⟨q.1, hq1, rfl⟩
      have hdr : create_key r ∈ (input.drop j).map create_key :=
        List.mem_map.mpr ⟨r, hrd, rfl⟩
      have hnd : ((input.take j).map create_key ++ (input.drop j).map create_key).Nodup := by
        rw [← List.map_append, List.take_append_drop]
        exact hkeys
      have hdisj := (List.nodup_append.mp hnd).2.2
      exact hdisj htk (hqk ▸ hdr)
    rw [unprocessed_rows, ← hP, hsplit, List.filterMap_append]
    have hA : ((input.take j).filter P).filterMap
        (fun r => (classify r).map (fun c => (r, c))) = [] := by
      rw [List.filterMap_eq_nil_iff]
      intro r hr
      rw [List.mem_filter] at hr
      rcases hcl : classify r with _ | c
      · rfl
      · exfalso
        have hck := checkpoint_after_mem hr.1 hcl
        have hkey : create_key r ∈ already_processed_keys (checkpoint_after classify input j) :=
          List.mem_map.mpr ⟨(r, c), hck, rfl⟩
        have hP2 := hr.2
        rw [hP] at hP2
        simp only [Bool.not_eq_true'] at hP2
        have hnc : create_key r ∉
            already_processed_keys (checkpoint_after classify input j) := by
          simpa using hP2
        exact hnc hkey
    rw [hA, List.nil_append, checkpoint_after, List.nil_append,
      ← List.filterMap_append, List.take_append_drop]

/-- Witness for C2 on a three-row input with distinct keys, interrupted
after the first row. -/
theorem resumability_witness :
    run_from (fun r => some r.course_name)
        (checkpoint_after (fun r => some r.course_name)
          [⟨"c1", "o1", none, none⟩, ⟨"c2", "o2", none, none⟩, ⟨"c3", "o3", none, none⟩] 1)
        [⟨"c1", "o1", none, none⟩, ⟨"c2", "o2", none, none⟩, ⟨"c3", "o3", none, none⟩]
      = run_from (fun r => some r.course_name) []
        [⟨"c1", "o1", none, none⟩, ⟨"c2", "o2", none, none⟩, ⟨"c3", "o3", none, none⟩] :=
  (resumability (fun r => some r.course_name)
    [⟨"c1", "o1", none, none⟩, ⟨"c2", "o2", none, none⟩, ⟨"c3", "o3", none, none⟩] 1
    (by decide)).2
